import Mathlib

/-!
Verification of the `sycamore_toast` toast-notification library
(`src/src/lib.rs`) against its natural-language specification.

The Rust store `Toasts<T>` wraps an `RcSignal<Vec<(T, u8)>>`.  We embed a
store state as a `List (T × Nat)` (insertion order preserved; the `u8` rank
becomes a `Nat`, with the one place where `u8` underflow matters modelled
explicitly by a checked decrement).  Each public method of `Toasts<T>`
becomes a pure function on that list; cookie persistence is modelled by
threading the serialized value alongside the entry list.
-/

namespace SycamoreToast

/-- `ToastType` from `src/src/lib.rs`: `Primary | Success | Warning | Danger`. -/
inductive ToastType where
  | Primary
  | Success
  | Warning
  | Danger
deriving DecidableEq, Repr

/-- `Toast` from `src/src/lib.rs`: title, body, toast_type, id.
`uuid::Uuid` is a 128-bit identifier used only for equality; it is modelled
as a `Nat`. -/
structure Toast where
  title : String
  body : String
  toast_type : ToastType
  id : Nat
deriving DecidableEq, Repr

/-- `Toast::primary`: title set, body empty, severity Primary; `fresh` stands
for the freshly generated `Uuid::new_v4()`. -/
def Toast.primary (text : String) (fresh : Nat) : Toast :=
  ⟨text, "", ToastType.Primary, fresh⟩

/-- `Toast::success`. -/
def Toast.success (text : String) (fresh : Nat) : Toast :=
  ⟨text, "", ToastType.Success, fresh⟩

/-- `Toast::warning`. -/
def Toast.warning (text : String) (fresh : Nat) : Toast :=
  ⟨text, "", ToastType.Warning, fresh⟩

/-- `Toast::danger`. -/
def Toast.danger (text : String) (fresh : Nat) : Toast :=
  ⟨text, "", ToastType.Danger, fresh⟩

/-- `Toast::body` (the fluent `withBody`): replaces the body field. -/
def Toast.setBody (t : Toast) (b : String) : Toast :=
  ⟨t.title, b, t.toast_type, t.id⟩

/-- A store state: the `Vec<(T, u8)>` inside the signal. -/
abbrev Entries (T : Type) := List (T × Nat)

/-- First pass of `Toasts::clear_toasts`:
`self.toasts.modify().retain(|(_, r)| *r >= 1)`. -/
def retainPass {T : Type} (l : Entries T) : Entries T :=
  l.filter fun e => decide (1 ≤ e.2)

/-- Second pass of `Toasts::clear_toasts`:
`for (_, rank) in self.toasts.modify().iter_mut() { *rank -= 1 }`.
The `u8` subtraction is embedded as truncated `Nat` subtraction here; the
checked variant `decrementPassChecked` below captures the underflow/panic
question. -/
def decrementPass {T : Type} (l : Entries T) : Entries T :=
  l.map fun e => (e.1, e.2 - 1)

/-- `Toasts::clear_toasts` as a state transformation: retain rank ≥ 1, then
decrement every remaining rank. -/
def clear_toasts {T : Type} (l : Entries T) : Entries T :=
  decrementPass (retainPass l)

/-- `u8` decrement with Rust's panic-on-underflow semantics: `r - 1` panics
(debug) exactly when `r = 0`. -/
def checkedDecrement (r : Nat) : Option Nat :=
  if r = 0 then none else some (r - 1)

/-- The decrement pass of `clear_toasts` with the `u8` underflow made
explicit: returns `none` iff some entry's `rank -= 1` would underflow. -/
def decrementPassChecked {T : Type} : Entries T → Option (Entries T)
  | [] => some []
  | e :: rest =>
    match checkedDecrement e.2 with
    | some r₂ => (decrementPassChecked rest).map fun l => (e.1, r₂) :: l
    | none => none

/-- `Toasts::add_toast`: `self.toasts.modify().push((toast, 0))`. -/
def add_toast {T : Type} (l : Entries T) (t : T) : Entries T :=
  l ++ [(t, 0)]

/-- `Toasts::with_rank`: `if let Some((_, r)) = self.toasts.modify().last_mut()
{ *r = rank; }` — sets the rank of the last entry, if any. -/
def with_rank {T : Type} : Entries T → Nat → Entries T
  | [], _ => []
  | [e], r => [(e.1, r)]
  | e :: e₂ :: rest, r => e :: with_rank (e₂ :: rest) r

/-- `k` successive calls of `clear_toasts` with no intervening operations. -/
def clearKTimes {T : Type} : Nat → Entries T → Entries T
  | 0, l => l
  | k + 1, l => clearKTimes k (clear_toasts l)

/-- The visible projection computed by `ToastsView`'s memo:
`toasts.get().iter().filter(|(_, r)| *r == 0).cloned().map(|(t, _)| t)`. -/
def new_toasts {T : Type} (l : Entries T) : List T :=
  (l.filter fun e => e.2 == 0).map Prod.fst

/-- The spec's words for the visible projection: "the subsequence of entries
whose rank is 0, with payloads taken in the original insertion order". -/
def visibleSpec {T : Type} (l : Entries T) : List T :=
  l.filterMap fun e => if e.2 = 0 then some e.1 else none

/-- Removal by id, as performed by `DefaultToastView`'s manual-dismiss
closure: `toasts.toasts.modify().retain(|(t, _)| t.id != toast1.id)`. -/
def removeById (i : Nat) (l : Entries Toast) : Entries Toast :=
  l.filter fun e => e.1.id != i

/-- Removal by structural equality, as performed by `DefaultToastView`'s
auto-dismiss task: `toasts.toasts.modify().retain(|(t, _)| *t != toast1)`. -/
def removeByValue (v : Toast) (l : Entries Toast) : Entries Toast :=
  l.filter fun e => e.1 != v

/-- One call of the Store API on a `Toasts<Toast>` store, entries-level. -/
inductive StoreOp where
  | add (t : Toast)
  | rank (r : Nat)
  | clear
  | removeId (i : Nat)
  | removeVal (v : Toast)

/-- Apply one Store API call to the entry list. -/
def applyOp (l : Entries Toast) : StoreOp → Entries Toast
  | StoreOp.add t => add_toast l t
  | StoreOp.rank r => with_rank l r
  | StoreOp.clear => clear_toasts l
  | StoreOp.removeId i => removeById i l
  | StoreOp.removeVal v => removeByValue v l

/-- Run a sequence of Store API calls from a fresh store (`Toasts::new`,
whose derived `Default` is the empty vector). -/
def runOps (ops : List StoreOp) : Entries Toast :=
  ops.foldl applyOp []

/-- The JSON data model used by `serde_json`.  The spec fixes only round-trip
fidelity ("exact byte form is not part of the contract"), so serialization is
embedded at the JSON-value level rather than the byte level; numbers are
restricted to the naturals, which covers every value the library writes. -/
inductive Json where
  | null
  | bool (b : Bool)
  | num (n : Nat)
  | str (s : String)
  | arr (items : List Json)
  | obj (fields : List (String × Json))

/-- serde's encoding of one store entry `(T, u8)`: a tuple serializes as a
two-element JSON array. -/
def encodeEntry {T : Type} (enc : T → Json) (e : T × Nat) : Json :=
  Json.arr [enc e.1, Json.num e.2]

/-- serde's encoding of the whole `Vec<(T, u8)>`: a JSON array of entries.
This is the value `serde_json::to_string` renders in `save_to_cookies`. -/
def encodeEntries {T : Type} (enc : T → Json) (l : Entries T) : Json :=
  Json.arr (l.map (encodeEntry enc))

/-- serde's decoding of a sequence of `(T, u8)` entries from a list of JSON
items; fails if any item is not a two-element array of a decodable payload
and a number. -/
def decodeEntryList {T : Type} (dec : Json → Option T) : List Json → Option (Entries T)
  | [] => some []
  | j :: rest =>
    match j with
    | Json.arr [jt, Json.num n] =>
      match dec jt with
      | some t => (decodeEntryList dec rest).map fun l => (t, n) :: l
      | none => none
    | _ => none

/-- serde's decoding of `Vec<(T, u8)>`, as run by `serde_json::from_str`
inside `from_cookies`; fails on anything but an array of entries. -/
def decodeEntries {T : Type} (dec : Json → Option T) : Json → Option (Entries T)
  | Json.arr items => decodeEntryList dec items
  | _ => none

/-- `CookieError` from `src/src/lib.rs`. -/
inductive CookieError where
  | CookieNotPresent
  | InvalidCookie
deriving DecidableEq, Repr

/-- The result of `wasm_cookies::get("sycamore_toasts")`, which has type
`Option<Result<String, FromUrlEncodingError>>`: `none` = no cookie named
`sycamore_toasts`; `some none` = cookie present but its raw value failed
URL-decoding (`Some(Err(_))`); `some (some j)` = cookie present and decoded,
with the decoded JSON text represented by its parsed JSON value `j`. -/
abbrev CookieGet := Option (Option Json)

/-- `Toasts::from_cookies`:
`if let Some(Ok(c)) = wasm_cookies::get("sycamore_toasts") { Ok(...from_str(&c)
.map_err(|_| InvalidCookie)?...) } else { Err(CookieNotPresent) }`.
Note the `if let` sends both `None` and `Some(Err(_))` to the `else` branch. -/
def from_cookies {T : Type} (dec : Json → Option T) : CookieGet → Except CookieError (Entries T)
  | some (some c) =>
    match decodeEntries dec c with
    | some l => Except.ok l
    | none => Except.error CookieError.InvalidCookie
  | _ => Except.error CookieError.CookieNotPresent

/-- `Toasts::save_to_cookies` followed by a read of the same cookie:
`wasm_cookies::set` URL-encodes `serde_json::to_string(entries)` and stores
it, so a subsequent `wasm_cookies::get` yields `Some(Ok(text))`; the stored
text is represented by its JSON value. -/
def save_to_cookies {T : Type} (enc : T → Json) (l : Entries T) : CookieGet :=
  some (some (encodeEntries enc l))

/-- serde's encoding of `ToastType`: an externally tagged unit variant
serializes as its name string. -/
def encodeToastType : ToastType → Json
  | ToastType.Primary => Json.str "Primary"
  | ToastType.Success => Json.str "Success"
  | ToastType.Warning => Json.str "Warning"
  | ToastType.Danger => Json.str "Danger"

/-- serde's decoding of `ToastType`. -/
def decodeToastType : Json → Option ToastType
  | Json.str "Primary" => some ToastType.Primary
  | Json.str "Success" => some ToastType.Success
  | Json.str "Warning" => some ToastType.Warning
  | Json.str "Danger" => some ToastType.Danger
  | _ => none

/-- serde's encoding of `Toast`: a struct serializes as an object with its
fields in declaration order; the `Uuid` id is rendered by its (modelled)
numeric value. -/
def encodeToast (t : Toast) : Json :=
  Json.obj [("title", Json.str t.title), ("body", Json.str t.body),
    ("toast_type", encodeToastType t.toast_type), ("id", Json.num t.id)]

/-- serde's decoding of `Toast`, matching the canonical field order produced
by `encodeToast`. -/
def decodeToast : Json → Option Toast
  | Json.obj [("title", Json.str a), ("body", Json.str b),
      ("toast_type", jt), ("id", Json.num n)] =>
    (decodeToastType jt).map fun ty => ⟨a, b, ty, n⟩
  | _ => none

/-- A mutating Store API call (`add_toast`, `with_rank`, `clear_toasts`) —
the three methods that end with `self.save_to_cookies()`. -/
inductive MutOp where
  | add (t : Toast)
  | rank (r : Nat)
  | clear

/-- A store together with its persistence cookie, as seen through
`wasm_cookies::get`. -/
abbrev StoreAndCookie := Entries Toast × CookieGet

/-- Apply one mutating Store API call: mutate the entry list exactly as the
Rust method does, then run `save_to_cookies`. -/
def applyMut (s : StoreAndCookie) : MutOp → StoreAndCookie
  | MutOp.add t =>
    let l := add_toast s.1 t
    (l, save_to_cookies encodeToast l)
  | MutOp.rank r =>
    let l := with_rank s.1 r
    (l, save_to_cookies encodeToast l)
  | MutOp.clear =>
    let l := clear_toasts s.1
    (l, save_to_cookies encodeToast l)

/-- The sequence of states a subscriber of the `toasts` signal is notified
with during one `clear_toasts` call.  `RcSignal::modify` returns a guard
that triggers the signal's subscribers when it is dropped, and
`clear_toasts` calls `modify()` twice — once for the `retain` pass and once
for the decrement loop — so subscribers are notified first with the
retained-but-undecremented vector and then with the final vector. -/
def clearToastsTrace {T : Type} (l : Entries T) : List (Entries T) :=
  [retainPass l, clear_toasts l]

/-- The render decision of `DefaultToastView`'s text block:
`toast.body.replace(' ', "").is_empty()` — true iff the body with every
space character removed is empty. -/
def rendersTitleOnly (t : Toast) : Bool :=
  (t.body.data.filter fun c => c != ' ').isEmpty

/-! Helper lemmas. -/

lemma new_toasts_eq_visibleSpec {T : Type} : ∀ l : Entries T, new_toasts l = visibleSpec l
  | [] => rfl
  | e :: l => by
    have ih := new_toasts_eq_visibleSpec l
    by_cases h : e.2 = 0 <;>
      simp [new_toasts, visibleSpec, List.filter_cons, List.filterMap_cons, h] at ih ⊢ <;>
      exact ih

lemma clear_toasts_filter_shift {T : Type} (k : Nat) :
    ∀ l : Entries T,
      ((clear_toasts l).filter fun e => decide (k ≤ e.2)).map (fun e => (e.1, e.2 - k)) =
        (l.filter fun e => decide (k + 1 ≤ e.2)).map (fun e => (e.1, e.2 - (k + 1)))
  | [] => rfl
  | e :: l => by
    have ih := clear_toasts_filter_shift k l
    by_cases h₁ : 1 ≤ e.2
    · by_cases h₂ : k + 1 ≤ e.2
      · have h₃ : k ≤ e.2 - 1 := by omega
        have h₄ : e.2 - 1 - k = e.2 - (k + 1) := by omega
        simp [clear_toasts, retainPass, decrementPass, List.filter_cons, h₁, h₂, h₃, h₄]
          at ih ⊢
        exact ih
      · have h₃ : ¬ k ≤ e.2 - 1 := by omega
        simp [clear_toasts, retainPass, decrementPass, List.filter_cons, h₁, h₂, h₃] at ih ⊢
        exact ih
    · have h₂ : ¬ k + 1 ≤ e.2 := by omega
      simp [clear_toasts, retainPass, decrementPass, List.filter_cons, h₁, h₂] at ih ⊢
      exact ih

lemma mem_retainPass {T : Type} {l : Entries T} {e : T × Nat} (he : e ∈ retainPass l) :
    1 ≤ e.2 := by
  simpa using (List.mem_filter.mp he).2

lemma decrementPassChecked_eq_of_all {T : Type} :
    ∀ m : Entries T, (∀ e ∈ m, 1 ≤ e.2) → decrementPassChecked m = some (decrementPass m)
  | [], _ => rfl
  | e :: m, h => by
    have h₁ : 1 ≤ e.2 := h e (List.mem_cons_self e m)
    have ih := decrementPassChecked_eq_of_all m fun x hx => h x (List.mem_cons_of_mem e hx)
    have h₀ : ¬ e.2 = 0 := by omega
    simp [decrementPassChecked, checkedDecrement, decrementPass, h₀, ih]

/-! Claim theorems. -/

/-- C1: for every store and every `k`, after `k` successive `clear_toasts`
calls with no intervening adds, exactly the entries with original rank `< k`
are dropped, each survivor with original rank `r ≥ k` ends up at rank
`r - k` (that is, `max 0 (r - k)`), and the relative order of the survivors
is preserved — the result is literally the filter of the original list to
ranks `≥ k` with every surviving rank lowered by `k`. -/
theorem clearKTimes_spec {T : Type} (k : Nat) (l : Entries T) :
    clearKTimes k l = (l.filter fun e => decide (k ≤ e.2)).map fun e => (e.1, e.2 - k) := by
  induction k generalizing l with
  | zero => simp [clearKTimes, Nat.zero_le]
  | succ k ih =>
    show clearKTimes k (clear_toasts l) = _
    rw [ih, clear_toasts_filter_shift]

/-- C2: for every store state reachable by a sequence of Store API calls
from a fresh store, the visible projection computed by `ToastsView`'s memo
equals the subsequence of entries whose rank is 0, with payloads taken in
the original insertion order. -/
theorem visible_projection_spec (ops : List StoreOp) :
    new_toasts (runOps ops) = visibleSpec (runOps ops) :=
  new_toasts_eq_visibleSpec (runOps ops)

/-- C10: the unconditional `u8` decrement in `clear_toasts` can never
underflow: after the `retain` pass every remaining entry has rank at least
1, so the checked decrement pass always succeeds and agrees with the
unchecked one, on every store state. -/
theorem clear_toasts_no_underflow {T : Type} (l : Entries T) :
    ((retainPass l).all fun e => decide (1 ≤ e.2)) = true ∧
      decrementPassChecked (retainPass l) = some (clear_toasts l) := by
  constructor
  · rw [List.all_eq_true]
    intro e he
    simpa using mem_retainPass he
  · exact decrementPassChecked_eq_of_all (retainPass l) fun e he => mem_retainPass he

lemma decodeToastType_encodeToastType (ty : ToastType) :
    decodeToastType (encodeToastType ty) = some ty := by
  cases ty <;> rfl

lemma decodeToast_encodeToast (t : Toast) : decodeToast (encodeToast t) = some t := by
  simp [encodeToast, decodeToast, decodeToastType_encodeToastType]

lemma decodeEntryList_encode {T : Type} (enc : T → Json) (dec : Json → Option T)
    (h : ∀ t, dec (enc t) = some t) :
    ∀ l : Entries T, decodeEntryList dec (l.map (encodeEntry enc)) = some l
  | [] => rfl
  | e :: l => by
    simp [decodeEntryList, encodeEntry, h e.1, decodeEntryList_encode enc dec h l]

lemma decodeEntries_encodeEntries {T : Type} (enc : T → Json) (dec : Json → Option T)
    (h : ∀ t, dec (enc t) = some t) (l : Entries T) :
    decodeEntries dec (encodeEntries enc l) = some l := by
  simp [decodeEntries, encodeEntries, decodeEntryList_encode enc dec h l]

/-- C4, amended: `from_cookies` yields `CookieNotPresent` when the cookie is
absent and also when it is present but its raw value fails URL-decoding; it
yields `InvalidCookie` exactly when the cookie is present and URL-decodes
but the decoded text fails to parse as an entry list; and on every input it
returns a typed result — it never throws or panics. -/
theorem from_cookies_spec {T : Type} (dec : Json → Option T) (jar : CookieGet) :
    (from_cookies dec jar = Except.error CookieError.CookieNotPresent ↔
        jar = none ∨ jar = some none) ∧
      (from_cookies dec jar = Except.error CookieError.InvalidCookie ↔
        ∃ j, jar = some (some j) ∧ decodeEntries dec j = none) ∧
      ((∃ l, from_cookies dec jar = Except.ok l) ∨
        from_cookies dec jar = Except.error CookieError.CookieNotPresent ∨
        from_cookies dec jar = Except.error CookieError.InvalidCookie) := by
  rcases jar with _ | jar
  · simp [from_cookies]
  · rcases jar with _ | j
    · simp [from_cookies]
    · rcases hd : decodeEntries dec j with _ | l <;> simp [from_cookies, hd]

/-- C4, counterexample: a cookie that is present but whose raw value fails
URL-decoding (`wasm_cookies::get` returns `Some(Err(_))`, e.g. for the raw
value `"%ff"`) makes `from_cookies` return `CookieNotPresent`, although the
cookie exists, and `CookieNotPresent` is not `InvalidCookie`. -/
theorem from_cookies_url_error_counterexample :
    from_cookies decodeToast (some none) = Except.error CookieError.CookieNotPresent ∧
      (some none : CookieGet) ≠ none ∧
      (Except.error CookieError.CookieNotPresent : Except CookieError (Entries Toast)) ≠
        Except.error CookieError.InvalidCookie := by
  refine ⟨rfl, by simp, by simp⟩

/-- C5: for every entry sequence producible by the Store API, decoding the
serialized form that `save_to_cookies` writes to the `sycamore_toasts`
cookie yields the same sequence; equivalently, a fresh store built by
`from_cookies` from the persisted cookie has an equal entry list. -/
theorem cookie_roundtrip (ops : List StoreOp) :
    decodeEntries decodeToast (encodeEntries encodeToast (runOps ops)) = some (runOps ops) ∧
      from_cookies decodeToast (save_to_cookies encodeToast (runOps ops)) =
        Except.ok (runOps ops) := by
  have h := decodeEntries_encodeEntries encodeToast decodeToast decodeToast_encodeToast
    (runOps ops)
  exact ⟨h, by simp [from_cookies, save_to_cookies, h]⟩

/-- C6: after every mutating Store API call (`add_toast`, `with_rank`,
`clear_toasts`) returns, the value stored in the `sycamore_toasts` cookie is
the serialization of the store's in-memory entry sequence, and decoding it
recovers that sequence. -/
theorem mutation_write_through (op : MutOp) (s : StoreAndCookie) :
    (applyMut s op).2 = save_to_cookies encodeToast (applyMut s op).1 ∧
      from_cookies decodeToast (applyMut s op).2 = Except.ok (applyMut s op).1 := by
  have h := decodeEntries_encodeEntries encodeToast decodeToast decodeToast_encodeToast
  cases op <;> exact ⟨rfl, by simp [applyMut, from_cookies, save_to_cookies, h]⟩

/-- A sample toast with a fixed id, used for concrete evaluations. -/
def dupToast : Toast := ⟨"dup", "", ToastType.Primary, 42⟩

/-- A sample toast whose body is a single tab character. -/
def tabBodyToast : Toast := ⟨"t", "\t", ToastType.Primary, 0⟩

/-- C3: `clear_toasts` is not externally atomic.  It calls `modify()` twice,
and each `Modify` guard notifies the signal's subscribers when it drops, so
on the store `[(a, 0), (b, 2)]` a subscriber is first notified with
`[(b, 2)]` — the rank-0 entries filtered out but the remaining ranks not yet
decremented — which differs from the final state `[(b, 1)]`. -/
theorem clear_toasts_intermediate_state_observed :
    clearToastsTrace [(Toast.primary "a" 1, 0), (Toast.primary "b" 2, 2)] =
        [[(Toast.primary "b" 2, 2)], [(Toast.primary "b" 2, 1)]] ∧
      retainPass [(Toast.primary "a" 1, 0), (Toast.primary "b" 2, 2)] ≠
        clear_toasts [(Toast.primary "a" 1, 0), (Toast.primary "b" 2, 2)] := by
  exact ⟨rfl, by decide⟩

/-- C7, counterexample: the store can hold two entries whose payloads share
an id (add the same toast twice); the default view's removal by id is a
`retain` over the whole vector, so it removes both entries — more than "at
most one". -/
theorem removeById_removes_two_counterexample :
    removeById 42 [(dupToast, 0), (dupToast, 0)] = [] ∧
      ¬ ([(dupToast, 0), (dupToast, 0)] : Entries Toast).length ≤
        (removeById 42 [(dupToast, 0), (dupToast, 0)]).length + 1 := by
  decide

lemma length_countP_id (i : Nat) :
    ∀ l : Entries Toast,
      l.length = (l.countP fun e => e.1.id == i) + (l.countP fun e => e.1.id != i)
  | [] => rfl
  | e :: l => by
    have ih := length_countP_id i l
    by_cases h : e.1.id = i <;> simp [List.countP_cons, h] <;> omega

/-- C7, amended: removal by id removes exactly the entries whose payload id
equals the given id — at most one entry when at most one entry carries that
id — and every entry whose payload id differs survives, with the surviving
entries in their original order. -/
theorem removeById_spec (l : Entries Toast) (i : Nat) :
    List.Sublist (removeById i l) l ∧
      (∀ e ∈ removeById i l, e.1.id ≠ i) ∧
      (∀ e ∈ l, e.1.id ≠ i → e ∈ removeById i l) ∧
      ((l.countP fun e => e.1.id == i) ≤ 1 →
        l.length ≤ (removeById i l).length + 1) := by
  refine ⟨List.filter_sublist l, ?_, ?_, ?_⟩
  · intro e he
    simpa [bne_iff_ne] using (List.mem_filter.mp he).2
  · intro e hel hne
    exact List.mem_filter.mpr ⟨hel, by simpa [bne_iff_ne] using hne⟩
  · intro hc
    have h₁ : (removeById i l).length = l.countP fun e => e.1.id != i := by
      simp [removeById, List.countP_eq_length_filter]
    have h₂ := length_countP_id i l
    omega

/-- Witness for `removeById_spec` at a concrete store and id. -/
theorem removeById_spec_witness :
    ([(dupToast, 0)] : Entries Toast).length ≤ (removeById 42 [(dupToast, 0)]).length + 1 :=
  (removeById_spec [(dupToast, 0)] 42).2.2.2 (by decide)

/-- C8: removal is idempotent — `removeById` and `removeByValue` applied
twice yield the same store state as applied once — and removing an entry
that is not present leaves the store unchanged rather than failing. -/
theorem removal_idempotent (l : Entries Toast) (i : Nat) (v : Toast) :
    removeById i (removeById i l) = removeById i l ∧
      removeByValue v (removeByValue v l) = removeByValue v l ∧
      ((∀ e ∈ l, e.1.id ≠ i) → removeById i l = l) ∧
      ((∀ e ∈ l, e.1 ≠ v) → removeByValue v l = l) := by
  refine ⟨?_, ?_, ?_, ?_⟩
  · simp [removeById, List.filter_filter]
  · simp [removeByValue, List.filter_filter]
  · intro h
    exact List.filter_eq_self.mpr fun e he => by simpa [bne_iff_ne] using h e he
  · intro h
    exact List.filter_eq_self.mpr fun e he => by simpa [bne_iff_ne] using h e he

/-- Witness for `removal_idempotent` at a concrete store: removing an absent
id and an absent value are no-ops. -/
theorem removal_idempotent_witness :
    removeById 7 [(dupToast, 0)] = [(dupToast, 0)] ∧
      removeByValue (Toast.primary "z" 9) [(dupToast, 0)] = [(dupToast, 0)] :=
  ⟨(removal_idempotent [(dupToast, 0)] 7 (Toast.primary "z" 9)).2.2.1 (by decide),
    (removal_idempotent [(dupToast, 0)] 7 (Toast.primary "z" 9)).2.2.2 (by decide)⟩

/-- C9, counterexample: a toast whose body is a single tab is whitespace-only
and non-empty, yet the default view does not collapse it to a title-only
block, because the code strips only space characters
(`body.replace(' ', "")`), not all whitespace. -/
theorem rendersTitleOnly_whitespace_counterexample :
    (tabBodyToast.body.data.all fun c => c.isWhitespace) = true ∧
      tabBodyToast.body ≠ "" ∧
      rendersTitleOnly tabBodyToast = false := by
  decide

/-- C9, amended: the default view renders the text block as a single bold
title exactly when every character of the body is a space (in particular
when the body is empty); otherwise it renders the title above the body. -/
theorem rendersTitleOnly_iff (t : Toast) :
    rendersTitleOnly t = true ↔ ∀ c ∈ t.body.data, c = ' ' := by
  simp [rendersTitleOnly, List.isEmpty_iff, List.filter_eq_nil_iff, bne_iff_ne]

end SycamoreToast
